import Mathlib

set_option maxRecDepth 16384

/-!
Verification development for the movcli terminal client (src/main.go).

The development shallowly embeds:
* the result extractor of `fetchMoviesCmd` (the fixed five-group pattern,
  applied with Go `regexp` semantics: leftmost-first matching, lazy gaps
  that never cross a newline, greedy negated character classes);
* the session model, messages, commands and the `Update` step;
* the `View` dispatch;
* the pure tail of `fetchMoviesCmd` and the exit path of `main`.
External collaborators (the bubbles text input, spinner and list, and the
lipgloss layout) are modelled at the granularity the session logic
observes, as stated in their doc comments.
-/

namespace Movcli

/-- One extracted list entry (`item` in main.go): display title, composed
description line, and the relative target path. -/
structure Item where
  title : String
  desc : String
  itemURL : String
deriving DecidableEq

/-- The five capture groups of the extraction pattern, in source order:
link target, three metadata spans, title text. -/
structure Groups where
  href : List Char
  s1 : List Char
  s2 : List Char
  s3 : List Char
  title : List Char
deriving DecidableEq

/-- Literal prefix of an anchor block: `<a class="item" href="`. -/
def hrefOpen : List Char := ("<a class=\"item\" href=\"").toList

/-- Literal closing the link-target group: `">`. -/
def quoteGt : List Char := ("\">").toList

/-- Literal opening a metadata span. -/
def spanOpen : List Char := ("<span>").toList

/-- Literal closing a metadata span. -/
def spanClose : List Char := ("</span>").toList

/-- Literal opening the title block: `<div class="title">`. -/
def titleOpen : List Char := ("<div class=\"title\">").toList

/-- Literal closing the title block. -/
def divClose : List Char := ("</div>").toList

/-- Match a literal at the head of the input; on success return the suffix
after the literal. -/
def dropLit : List Char → List Char → Option (List Char)
  | [], s => some s
  | _ :: _, [] => none
  | c :: cs, d :: ds => if c = d then dropLit cs ds else none

/-- Backtracking engine for one lazy gap `.*?` followed by a literal and a
continuation, with Go `regexp` semantics: `.` matches any character except
a newline, and among gap lengths whose continuation succeeds the shortest
is chosen (leftmost-first).  On failure of the continuation the gap grows
by one character, stopping at a newline or at the end of the input. -/
def lazyFind {A : Type} (lit : List Char) (k : List Char → Option A) : List Char → Option A
  | [] => (dropLit lit []).bind k
  | c :: cs =>
    match dropLit lit (c :: cs) with
    | some rest =>
      match k rest with
      | some r => some r
      | none => if c = '\n' then none else lazyFind lit k cs
    | none => if c = '\n' then none else lazyFind lit k cs

/-- `([^<]+)` followed by a closing literal: the group is the maximal
nonempty run of characters other than `<`; the closing literal must follow
it (a shorter run would put a non-`<` character where the literal demands
`<`, so greedy backtracking adds no further alternative). -/
def parseBody (close : List Char) (s : List Char) : Option (List Char × List Char) :=
  if (s.takeWhile (fun c => c ≠ '<')).isEmpty then none
  else (dropLit close (s.dropWhile (fun c => c ≠ '<'))).map
    (fun r => (s.takeWhile (fun c => c ≠ '<'), r))

/-- `<a class="item" href="([^"]+)">` anchored at the head of the input:
the literal prefix, then the maximal nonempty run of non-quote characters,
then `">`. -/
def parseHref (s : List Char) : Option (List Char × List Char) :=
  match dropLit hrefOpen s with
  | none => none
  | some r =>
    if (r.takeWhile (fun c => c ≠ '"')).isEmpty then none
    else (dropLit quoteGt (r.dropWhile (fun c => c ≠ '"'))).map
      (fun t => (r.takeWhile (fun c => c ≠ '"'), t))

/-- One attempt to match the whole five-group pattern of main.go:359 with
the match starting exactly at the head of the input; returns the captured
groups and the suffix after the final `</div>`.  The nested continuations
realise the backtracking order of a leftmost-first search. -/
def matchFrom (s : List Char) : Option (Groups × List Char) :=
  match parseHref s with
  | none => none
  | some (h, r0) =>
    lazyFind spanOpen (fun a0 =>
      match parseBody spanClose a0 with
      | none => none
      | some (g2, r1) =>
        lazyFind spanOpen (fun a1 =>
          match parseBody spanClose a1 with
          | none => none
          | some (g3, r2) =>
            lazyFind spanOpen (fun a2 =>
              match parseBody spanClose a2 with
              | none => none
              | some (g4, r3) =>
                lazyFind titleOpen (fun a3 =>
                  match parseBody divClose a3 with
                  | none => none
                  | some (g5, r4) => some (⟨h, g2, g3, g4, g5⟩, r4)) r3) r2) r1) r0

/-- Left-to-right scan collecting successive non-overlapping matches, as
`FindAllStringSubmatch`: attempt a match at the current position, emit it
and resume after its end, otherwise advance one character.  The fuel is a
recursion bound; every step consumes at least one character, so fuel equal
to the input length is always sufficient. -/
def scanAux : Nat → List Char → List Groups
  | 0, _ => []
  | fuel + 1, s =>
    match matchFrom s with
    | some (g, rest) => g :: scanAux fuel rest
    | none =>
      match s with
      | [] => []
      | _ :: t => scanAux fuel t

/-- All matches of the pattern over the input, in source order. -/
def scan (s : List Char) : List Groups := scanAux s.length s

/-- Build the display record exactly as main.go:365-366: title from group
five, description joining the three spans with two spaces, URL from group
one. -/
def toItem (g : Groups) : Item :=
  { title := String.mk g.title
  , desc := String.mk g.s1 ++ ("  ") ++ String.mk g.s2 ++ ("  ") ++ String.mk g.s3
  , itemURL := String.mk g.href }

/-- The result extractor: main.go:359-368 applied to the `html` field of
the decoded envelope. -/
def extract (html : String) : List Item := (scan html.toList).map toItem

/-- Newline-freeness of a character list: what a gap skipped by the lazy
dot of the pattern always satisfies in Go `regexp` (no `(?s)` flag). -/
def NoNl (l : List Char) : Prop := ('\n') ∉ l

/-- Shape of every successful match: the input decomposes into the five
literals, the five captured groups and four gap strings, where each gap is
newline-free and each group is nonempty and free of its terminating
delimiter character. -/
def MatchShape (s : List Char) (g : Groups) (rest : List Char) : Prop :=
  ∃ w1 w2 w3 w4 : List Char,
    s = hrefOpen ++ g.href ++ quoteGt ++ w1 ++ spanOpen ++ g.s1 ++ spanClose ++
        w2 ++ spanOpen ++ g.s2 ++ spanClose ++ w3 ++ spanOpen ++ g.s3 ++ spanClose ++
        w4 ++ titleOpen ++ g.title ++ divClose ++ rest ∧
    NoNl w1 ∧ NoNl w2 ∧ NoNl w3 ∧ NoNl w4 ∧
    g.href ≠ [] ∧ g.s1 ≠ [] ∧ g.s2 ≠ [] ∧ g.s3 ≠ [] ∧ g.title ≠ [] ∧
    ('"') ∉ g.href ∧ ('<') ∉ g.s1 ∧ ('<') ∉ g.s2 ∧ ('<') ∉ g.s3 ∧ ('<') ∉ g.title

/-- The exact single-line markup of one complete anchor block carrying the
given field values (the upstream shape the pattern was written for). -/
def renderBlock (g : Groups) : List Char :=
  hrefOpen ++ g.href ++ quoteGt ++ spanOpen ++ g.s1 ++ spanClose ++
  spanOpen ++ g.s2 ++ spanClose ++ spanOpen ++ g.s3 ++ spanClose ++
  titleOpen ++ g.title ++ divClose

/-- Field values representable in the markup: every group nonempty and
free of the character that terminates its capture class. -/
def WellFormed (g : Groups) : Prop :=
  g.href ≠ [] ∧ ('"') ∉ g.href ∧ g.s1 ≠ [] ∧ ('<') ∉ g.s1 ∧
  g.s2 ≠ [] ∧ ('<') ∉ g.s2 ∧ g.s3 ≠ [] ∧ ('<') ∉ g.s3 ∧
  g.title ≠ [] ∧ ('<') ∉ g.title

/-- The session mode enumeration of main.go:97-104.  Per the spec mapping:
`stateSearch` is Input, `stateLoading` is Waiting, `stateResults` is
Showing, `stateError` is Failed. -/
inductive SessionState
  | stateSearch
  | stateLoading
  | stateResults
  | stateError
deriving DecidableEq

/-- Fetcher-origin errors: the transport and decode failures returned as
plain errors by fetchMoviesCmd, and the no-results error of main.go:371
which carries the query it names. -/
inductive FetchError
  | network (s : String)
  | decode (s : String)
  | noResults (query : String)
deriving DecidableEq

/-- A key event, as the `msg.String()` switch of main.go:198 distinguishes
them: the three named keys it handles, plus backspace, single printable
runes, and a catch-all for other named keys (arrows, tab, ...). -/
inductive Key
  | ctrlc
  | enter
  | esc
  | backspace
  | char (c : Char)
  | other (s : String)
deriving DecidableEq

/-- Messages consumed by the update step: key events, terminal resize
notifications, the two fetch-completion shapes (`[]list.Item` and
`error`), and component tick messages. -/
inductive Msg
  | key (k : Key)
  | windowSize (w h : Int)
  | gotItems (its : List Item)
  | gotError (e : FetchError)
  | tickMsg
deriving DecidableEq

/-- Commands returned by the update step.  `batch` mirrors the one
`tea.Batch` call of the source (two arguments); `fetch` is the dispatched
asynchronous Fetcher call tagged with its query. -/
inductive Cmd
  | none
  | quit
  | tick
  | blink
  | fetch (query : String)
  | batch (a b : Cmd)
deriving DecidableEq

/-- The queries of all fetches a command dispatches, in order. -/
def fetchQueries : Cmd → List String
  | .fetch q => [q]
  | .batch a b => fetchQueries a ++ fetchQueries b
  | _ => []

/-- The text-entry component state the session logic observes: the edit
buffer (a rune sequence, as in the bubbles textinput) and focus. -/
structure TextInput where
  value : List Char
  focused : Bool
deriving DecidableEq

/-- `Value()`: the buffer as a string. -/
def TextInput.valueStr (ti : TextInput) : String := String.mk ti.value

/-- `CharLimit` set in initialModel (main.go:163). -/
def charLimit : Nat := 100

/-- `Focus()`. -/
def TextInput.focus (ti : TextInput) : TextInput := { ti with focused := true }

/-- Model of the external bubbles textinput update: while focused, a
printable rune is appended to the buffer (up to the rune limit) and
backspace deletes the last rune; named keys and non-key messages leave the
buffer unchanged. -/
def TextInput.updateVal (ti : TextInput) (msg : Msg) : TextInput :=
  match msg with
  | .key k =>
    if ti.focused then
      match k with
      | .char c =>
        if ti.value.length < charLimit then { ti with value := ti.value ++ [c] }
        else ti
      | .backspace => { ti with value := ti.value.dropLast }
      | _ => ti
    else ti
  | _ => ti

/-- The pair returned by the component update; its commands (cursor blink
scheduling) carry no fetch and are modelled as the null command. -/
def TextInput.update (ti : TextInput) (msg : Msg) : TextInput × Cmd :=
  (TextInput.updateVal ti msg, .none)

/-- The list component state the session logic observes: the items, the
highlighted index, the filter prompt flag and its text, and the size set
through `SetSize`. -/
structure ListModel where
  items : List Item
  index : Nat
  settingFilter : Bool
  filterText : List Char
  width : Int
  height : Int
deriving DecidableEq

/-- `SetSize`. -/
def ListModel.setSize (l : ListModel) (w h : Int) : ListModel :=
  { l with width := w, height := h }

/-- `SetItems`. -/
def ListModel.setItems (l : ListModel) (its : List Item) : ListModel :=
  { l with items := its }

/-- `SelectedItem()`: the highlighted item, when one exists. -/
def ListModel.selectedItem (l : ListModel) : Option Item := l.items.get? l.index

/-- Model of the external bubbles list update at the granularity this
development observes: the slash key opens the filter prompt, enter closes
it, runes typed while filtering grow the filter text; navigation and the
rest leave the observed fields unchanged.  It never touches the session's
other fields and never dispatches a fetch. -/
def ListModel.updateVal (l : ListModel) (msg : Msg) : ListModel :=
  match msg with
  | .key k =>
    if l.settingFilter then
      match k with
      | .enter => { l with settingFilter := false }
      | .esc => { l with settingFilter := false, filterText := [] }
      | .char c => { l with filterText := l.filterText ++ [c] }
      | _ => l
    else if k = .char '/' then { l with settingFilter := true }
    else l
  | _ => l

/-- The pair returned by the component update; its commands (filter and
pagination bookkeeping) carry no fetch and are modelled as the null
command. -/
def ListModel.update (l : ListModel) (msg : Msg) : ListModel × Cmd :=
  (ListModel.updateVal l msg, .none)

/-- Model of the external bubbles spinner update: a tick advances the
frame counter and schedules the next tick; everything else is ignored. -/
def spinnerUpdate (n : Nat) (msg : Msg) : Nat × Cmd :=
  match msg with
  | .tickMsg => (n + 1, .tick)
  | _ => (n, .none)

/-- The app model of main.go:139-148. -/
structure Model where
  state : SessionState
  searchInput : TextInput
  spinner : Nat
  list : ListModel
  resultCount : Nat
  err : Option FetchError
  width : Int
  height : Int
deriving DecidableEq

/-- `initialModel` (main.go:159-186): Input mode, focused empty text
entry, empty list, zero viewport. -/
def initialModel : Model :=
  { state := .stateSearch
  , searchInput := { value := [], focused := true }
  , spinner := 0
  , list := { items := [], index := 0, settingFilter := false, filterText := []
            , width := 0, height := 0 }
  , resultCount := 0
  , err := Option.none
  , width := 0
  , height := 0 }

/-- Immediate side effects performed inside the update step (as opposed to
returned commands): only the browser launch of main.go:219. -/
inductive Effect
  | openBrowser (url : String)
deriving DecidableEq

/-- Result of one update step: the next model, the returned command, and
the immediate side effects performed. -/
structure StepOut where
  model : Model
  cmd : Cmd
  effects : List Effect
deriving DecidableEq

/-- Wrap a (model, command) pair with no immediate side effects. -/
def plain (p : Model × Cmd) : StepOut := ⟨p.1, p.2, []⟩

/-- The trailing per-state dispatch of main.go:246-253: forward the message
to the component owned by the current mode (no case for the error mode). -/
def stateDispatch (m : Model) (msg : Msg) : Model × Cmd :=
  match m.state with
  | .stateSearch =>
    let p := TextInput.update m.searchInput msg
    ({ m with searchInput := p.1 }, p.2)
  | .stateLoading =>
    let p := spinnerUpdate m.spinner msg
    ({ m with spinner := p.1 }, p.2)
  | .stateResults =>
    let p := ListModel.update m.list msg
    ({ m with list := p.1 }, p.2)
  | .stateError => (m, .none)

/-- Base of the absolute URL computed on selection (main.go:219). -/
def baseURL : String := "https://movhub.ws"

/-- The update step, main.go:193-256, translated branch for branch:
the key switch with its early returns and fall-throughs, the resize
handler, the two completion handlers (applied with no mode check), and the
trailing per-state component dispatch. -/
def update (m : Model) (msg : Msg) : StepOut :=
  match msg with
  | .key k =>
    match k with
    | .ctrlc => ⟨m, .quit, []⟩
    | .char c =>
      if c = 'q' then
        if m.state ≠ .stateResults ∨ m.list.settingFilter = false then ⟨m, .quit, []⟩
        else plain (stateDispatch m msg)
      else plain (stateDispatch m msg)
    | .esc =>
      if m.state = .stateResults ∨ m.state = .stateError then
        ⟨{ m with state := .stateSearch, searchInput := m.searchInput.focus }, .none, []⟩
      else plain (stateDispatch m msg)
    | .enter =>
      if m.state = .stateSearch ∧ m.searchInput.value ≠ [] then
        ⟨{ m with state := .stateLoading }, .batch .tick (.fetch m.searchInput.valueStr), []⟩
      else if m.state = .stateResults then
        match m.list.selectedItem with
        | some it => ⟨m, .quit, [.openBrowser (baseURL ++ it.itemURL)]⟩
        | Option.none => plain (stateDispatch m msg)
      else plain (stateDispatch m msg)
    | _ => plain (stateDispatch m msg)
  | .windowSize w h =>
    let lw : Int := if w - 8 > 84 then 84 else w - 8
    plain (stateDispatch
      { m with width := w, height := h, list := m.list.setSize lw (h - 7) } msg)
  | .gotItems its =>
    ⟨{ m with resultCount := its.length, list := m.list.setItems its
            , state := .stateResults }, .none, []⟩
  | .gotError e =>
    ⟨{ m with err := some e, state := .stateError }, .none, []⟩
  | .tickMsg => plain (stateDispatch m msg)

/-- A horizontal divider of the given width. -/
def divider (n : Nat) : String := String.mk (List.replicate n '-')

/-- Layout model: lipgloss placement and styling are external collaborators
and are treated as identity on the text content they arrange. -/
def place (_w _h : Int) (s : String) : String := s

/-- The text field echoes the edit buffer (cursor and styling external). -/
def TextInput.view (ti : TextInput) : String := String.mk ti.value

/-- Frames of `spinner.Line`. -/
def spinnerFrames : List Char := ("|/-\\").toList

/-- The spinner glyph for the current frame. -/
def spinnerView (n : Nat) : String := String.mk [spinnerFrames.getD (n % 4) ('-')]

/-- `viewSearch` (main.go:276-290): logo, subtitle, divider, label, the
echoed text field, hints. -/
def viewSearch (m : Model) : String :=
  place m.width m.height (String.intercalate ("\n")
    [("MOVCLI"), ("stream anything from your terminal"), (""), divider 50, ("")
    , ("SEARCH"), ("  ") ++ m.searchInput.view, ("")
    , ("  ENTER search   CTRL+C quit")])

/-- `viewLoading` (main.go:292-296): spinner plus the literal query. -/
def viewLoading (m : Model) : String :=
  place m.width m.height
    (("  ") ++ spinnerView m.spinner ++ ("  searching for \"") ++ m.searchInput.view ++ ("\""))

/-- One rendered list entry (the delegate of main.go:121-136). -/
def itemLine (sel : Bool) (it : Item) : String :=
  (if sel then ("> ") else ("  ")) ++ it.title ++ ("\n  ") ++ it.desc

/-- The rendered list rows. -/
def listView (l : ListModel) : String :=
  String.intercalate ("\n") (l.items.enum.map (fun p => itemLine (p.1 = l.index) p.2))

/-- `viewResults` (main.go:298-320): header with count and query, divider,
the list, divider, hints. -/
def viewResults (m : Model) : String :=
  place m.width m.height (String.intercalate ("\n")
    [("RESULTS  ") ++ toString m.resultCount ++ (" results for \"") ++ m.searchInput.view ++ ("\"")
    , divider m.list.width.toNat, listView m.list, divider m.list.width.toNat
    , ("  UP/DOWN navigate   ENTER open   ESC back   / filter")])

/-- The displayed message of a fetch error (`err.Error()`): transport and
decode errors carry their own text; the no-results error renders the text
built at main.go:371 (the query quoted, `%q` on a quote-free string). -/
def errText : FetchError → String
  | .network s => s
  | .decode s => s
  | .noResults q => ("no results for \"") ++ q ++ ("\"")

/-- `viewError` (main.go:322-328).  (In Go a nil error here would panic;
the error mode is only ever entered together with a stored error.) -/
def viewError (m : Model) : String :=
  place m.width m.height (String.intercalate ("\n")
    [("ERROR"), ("")
    , (match m.err with | some e => errText e | Option.none => (""))
    , (""), ("press ESC to go back")])

/-- `View` (main.go:259-274): an unknown viewport (width still zero, i.e.
no resize notification yet) renders the empty frame in every mode;
otherwise dispatch on the mode. -/
def view (m : Model) : String :=
  if m.width = 0 then ("")
  else
    match m.state with
    | .stateSearch => viewSearch m
    | .stateLoading => viewLoading m
    | .stateResults => viewResults m
    | .stateError => viewError m

/-- Environment outcome of the single HTTP round trip of fetchMoviesCmd:
a transport failure, a body that fails JSON decoding, or a decoded
envelope carrying its `html` fragment. -/
inductive NetOutcome
  | transportErr (s : String)
  | decodeErr (s : String)
  | envelope (html : String)
deriving DecidableEq

/-- The message produced by one fetchMoviesCmd invocation (main.go:331-375)
given the round-trip outcome: errors are returned as messages; otherwise
the fragment is extracted, zero records yield the no-results error naming
the query (main.go:370-372), and otherwise the item list is returned. -/
def fetchMovies (query : String) (env : NetOutcome) : Msg :=
  match env with
  | .transportErr s => .gotError (.network s)
  | .decodeErr s => .gotError (.decode s)
  | .envelope html =>
    let its := extract html
    if its = [] then .gotError (.noResults query) else .gotItems its

/-- What the process performs on the way out, beyond exiting. -/
inductive ExitEffect
  | scheduleSelfRemove (delayMs : Nat)
deriving DecidableEq

/-- `selfCleanup` (main.go:399-408), deferred by `main`: when the running
executable's path resolves, schedule removal of the program's own binary
half a second later; otherwise do nothing. -/
def selfCleanup (exeResolvable : Bool) : List ExitEffect :=
  if exeResolvable then [.scheduleSelfRemove 500] else []

/-- Whether a message is a fetch completion (either shape). -/
def isCompletion : Msg → Bool
  | .gotItems _ => true
  | .gotError _ => true
  | _ => false

/-- Reachable configurations of the session paired with the number of
outstanding fetch tasks.  The initial model has none outstanding.  A step
consumes any message — a completion only when a task is outstanding, since
only an outstanding task can produce one — and the count gains the fetches
dispatched by the returned command and loses the consumed completion. -/
inductive Reach : Model → Nat → Prop
  | init : Reach initialModel 0
  | step {m : Model} {k : Nat} (msg : Msg) :
      Reach m k →
      (isCompletion msg = true → 0 < k) →
      Reach (update m msg).model
        ((if isCompletion msg = true then k - 1 else k) +
          (fetchQueries (update m msg).cmd).length)

/-- The single-flight invariant: the session is Waiting exactly while one
fetch task is outstanding, and otherwise none is. -/
def Inv (m : Model) (k : Nat) : Prop :=
  (m.state = .stateLoading ∧ k = 1) ∨ (m.state ≠ .stateLoading ∧ k = 0)

/-- The query buffer never holds the quit rune. -/
def QFree (m : Model) : Prop := ('q') ∉ m.searchInput.value

/-- Scenario A fragment: one complete anchor block on a single line. -/
def singleBlock : String :=
  "<a class=\"item\" href=\"/watch/x1\"><span>Movie</span><span>2020</span><span>120m</span><div class=\"title\">Example</div>"

/-- The same block with newlines between its five groups. -/
def multiLineBlock : String :=
  "<a class=\"item\" href=\"/watch/x1\">\n<span>Movie</span>\n<span>2020</span>\n<span>120m</span>\n<div class=\"title\">Example</div>"

/-- A second complete block, its title containing a literal ampersand. -/
def secondBlock : String :=
  "<a class=\"item\" href=\"/watch/x2\"><span>TV</span><span>2021</span><span>8ep</span><div class=\"title\">Fast & Furious</div>"

/-- A malformed block: the required title group is missing. -/
def truncatedBlock : String :=
  "<a class=\"item\" href=\"/bad\"><span>Movie</span><span>2020</span><span>120m</span>"

/-- The record extracted from `singleBlock`. -/
def exampleItem : Item := ⟨("Example"), ("Movie  2020  120m"), ("/watch/x1")⟩

/-- The record extracted from `secondBlock`. -/
def secondItem : Item := ⟨("Fast & Furious"), ("TV  2021  8ep"), ("/watch/x2")⟩

/-- The single record extracted from `truncatedBlock ++ secondBlock`: the
fields of the truncated block completed by the title of the following
block. -/
def chimeraItem : Item := ⟨("Fast & Furious"), ("Movie  2020  120m"), ("/bad")⟩

/-- The groups of the `singleBlock` match. -/
def singleGroups : Groups :=
  ⟨("/watch/x1").toList, ("Movie").toList, ("2020").toList, ("120m").toList,
    ("Example").toList⟩

/-- A session sitting in the Failed mode with a stored error. -/
def failedModel : Model :=
  { initialModel with state := .stateError, err := some (.noResults ("x")) }

/-- A session sitting in the Input mode with a nonempty query. -/
def typedModel : Model :=
  { initialModel with searchInput := { value := ("alien").toList, focused := true } }

/-- A session sitting in the Waiting mode. -/
def loadingModel : Model := { initialModel with state := .stateLoading }

/-! ## Structural lemmas about the extractor -/

theorem dropLit_some (lit : List Char) :
    ∀ (s r : List Char), dropLit lit s = some r → s = lit ++ r := by
  induction lit with
  | nil =>
    intro s r h
    simp only [dropLit, Option.some.injEq] at h
    simp [h]
  | cons c cs ih =>
    intro s r h
    cases s with
    | nil => simp [dropLit] at h
    | cons d ds =>
      simp only [dropLit] at h
      split at h
      · rename_i hcd
        have := ih ds r h
        simp [← hcd, this]
      · exact absurd h (by simp)

theorem NoNl_nil : NoNl [] := by simp [NoNl]

theorem NoNl_cons {c : Char} {w : List Char} (h1 : ¬ c = '\n') (h2 : NoNl w) :
    NoNl (c :: w) := by
  simp only [NoNl, List.mem_cons, not_or] at h2 ⊢
  exact ⟨fun he => h1 he.symm, h2⟩

theorem lazyFind_some {A : Type} (lit : List Char) (k : List Char → Option A) :
    ∀ (s : List Char) (a : A), lazyFind lit k s = some a →
      ∃ w r, s = w ++ lit ++ r ∧ NoNl w ∧ k r = some a := by
  intro s
  induction s with
  | nil =>
    intro a h
    simp only [lazyFind] at h
    cases hd : dropLit lit [] with
    | none => rw [hd] at h; simp at h
    | some r =>
      rw [hd] at h
      simp only [Option.some_bind] at h
      refine ⟨[], r, ?_, NoNl_nil, h⟩
      simpa using dropLit_some lit [] r hd
  | cons c cs ih =>
    intro a h
    simp only [lazyFind] at h
    split at h
    · rename_i rest hd
      split at h
      · rename_i r hk
        simp only [Option.some.injEq] at h
        subst h
        exact ⟨[], rest, by simpa using dropLit_some lit (c :: cs) rest hd, NoNl_nil, hk⟩
      · rename_i hk
        split at h
        · simp at h
        · rename_i hc
          obtain ⟨w, r, hw, hnl, hk2⟩ := ih a h
          exact ⟨c :: w, r, by simp [hw], NoNl_cons hc hnl, hk2⟩
    · rename_i hd
      split at h
      · simp at h
      · rename_i hc
        obtain ⟨w, r, hw, hnl, hk2⟩ := ih a h
        exact ⟨c :: w, r, by simp [hw], NoNl_cons hc hnl, hk2⟩

theorem parseBody_some (close : List Char) (s run r : List Char)
    (h : parseBody close s = some (run, r)) :
    s = run ++ close ++ r ∧ run ≠ [] ∧ ('<') ∉ run := by
  unfold parseBody at h
  split at h
  · simp at h
  · rename_i hne
    cases hd : dropLit close (s.dropWhile (fun c => c ≠ '<')) with
    | none => rw [hd] at h; simp at h
    | some t =>
      rw [hd] at h
      have h' : some ((s.takeWhile (fun c => c ≠ '<')), t) = some (run, r) := h
      rw [Option.some.injEq, Prod.mk.injEq] at h'
      obtain ⟨h1, h2⟩ := h'
      subst h1
      subst h2
      refine ⟨?_, ?_, ?_⟩
      · conv_lhs => rw [← List.takeWhile_append_dropWhile (p := fun c => decide (c ≠ '<')) (l := s)]
        rw [dropLit_some close _ t hd]
        simp [List.append_assoc]
      · simpa [List.isEmpty_iff] using hne
      · intro hmem
        have := List.mem_takeWhile_imp hmem
        simp at this

theorem parseHref_some (s run r : List Char) (h : parseHref s = some (run, r)) :
    s = hrefOpen ++ run ++ quoteGt ++ r ∧ run ≠ [] ∧ ('"') ∉ run := by
  unfold parseHref at h
  split at h
  · simp at h
  · rename_i rst hd
    split at h
    · simp at h
    · rename_i hne
      cases hd2 : dropLit quoteGt (rst.dropWhile (fun c => c ≠ '"')) with
      | none => rw [hd2] at h; simp at h
      | some t =>
        rw [hd2] at h
        have h' : some ((rst.takeWhile (fun c => c ≠ '"')), t) = some (run, r) := h
        rw [Option.some.injEq, Prod.mk.injEq] at h'
        obtain ⟨h1, h2⟩ := h'
        subst h1
        subst h2
        refine ⟨?_, ?_, ?_⟩
        · rw [dropLit_some hrefOpen s rst hd]
          conv_lhs =>
            rw [← List.takeWhile_append_dropWhile (p := fun c => decide (c ≠ '"')) (l := rst)]
          rw [dropLit_some quoteGt _ t hd2]
          simp [List.append_assoc]
        · simpa [List.isEmpty_iff] using hne
        · intro hmem
          have := List.mem_takeWhile_imp hmem
          simp at this

theorem matchFrom_some (s : List Char) (g : Groups) (rest : List Char)
    (h : matchFrom s = some (g, rest)) : MatchShape s g rest := by
  unfold matchFrom at h
  cases hp : parseHref s with
  | none => rw [hp] at h; simp at h
  | some pr =>
    obtain ⟨h0, r0⟩ := pr
    rw [hp] at h
    obtain ⟨hs0, hne0, hq0⟩ := parseHref_some s h0 r0 hp
    obtain ⟨w1, a0, hr0, hnl1, hk1⟩ := lazyFind_some spanOpen _ r0 (g, rest) h
    revert hk1
    cases hb1 : parseBody spanClose a0 with
    | none => intro hk1; simp at hk1
    | some p1 =>
      obtain ⟨g2, r1⟩ := p1
      obtain ⟨ha0, hne2, hl2⟩ := parseBody_some spanClose a0 g2 r1 hb1
      intro hk1
      obtain ⟨w2, a1, hr1, hnl2, hk2⟩ := lazyFind_some spanOpen _ r1 (g, rest) hk1
      revert hk2
      cases hb2 : parseBody spanClose a1 with
      | none => intro hk2; simp at hk2
      | some p2 =>
        obtain ⟨g3, r2⟩ := p2
        obtain ⟨ha1, hne3, hl3⟩ := parseBody_some spanClose a1 g3 r2 hb2
        intro hk2
        obtain ⟨w3, a2, hr2, hnl3, hk3⟩ := lazyFind_some spanOpen _ r2 (g, rest) hk2
        revert hk3
        cases hb3 : parseBody spanClose a2 with
        | none => intro hk3; simp at hk3
        | some p3 =>
          obtain ⟨g4, r3⟩ := p3
          obtain ⟨ha2, hne4, hl4⟩ := parseBody_some spanClose a2 g4 r3 hb3
          intro hk3
          obtain ⟨w4, a3, hr3, hnl4, hk4⟩ := lazyFind_some titleOpen _ r3 (g, rest) hk3
          revert hk4
          cases hb4 : parseBody divClose a3 with
          | none => intro hk4; simp at hk4
          | some p4 =>
            obtain ⟨g5, r4⟩ := p4
            obtain ⟨ha3, hne5, hl5⟩ := parseBody_some divClose a3 g5 r4 hb4
            intro hk4
            simp only [Option.some.injEq, Prod.mk.injEq] at hk4
            obtain ⟨hg, hrest⟩ := hk4
            subst hg; subst hrest
            refine ⟨w1, w2, w3, w4, ?_, hnl1, hnl2, hnl3, hnl4,
              hne0, hne2, hne3, hne4, hne5, hq0, hl2, hl3, hl4, hl5⟩
            rw [hs0, hr0, ha0, hr1, ha1, hr2, ha2, hr3, ha3]
            simp [List.append_assoc]

theorem hrefOpen_ne_nil : hrefOpen ≠ [] := by decide

theorem matchFrom_lt (s : List Char) (g : Groups) (rest : List Char)
    (h : matchFrom s = some (g, rest)) : rest.length < s.length := by
  obtain ⟨w1, w2, w3, w4, hs, -⟩ := matchFrom_some s g rest h
  rw [hs]
  simp only [List.length_append]
  have : 0 < hrefOpen.length := by decide
  omega

theorem matchFrom_nil : matchFrom [] = none := by decide

theorem scanAux_succ (f : Nat) : ∀ (s : List Char), s.length ≤ f →
    scanAux (f + 1) s = scanAux f s := by
  induction f with
  | zero =>
    intro s hs
    have : s = [] := by
      cases s with
      | nil => rfl
      | cons c t => simp at hs
    subst this
    simp [scanAux, matchFrom_nil]
  | succ f ih =>
    intro s hs
    cases hm : matchFrom s with
    | some p =>
      obtain ⟨g, rest⟩ := p
      have hlt := matchFrom_lt s g rest hm
      simp only [scanAux, hm]
      exact congrArg (g :: ·) (ih rest (by omega))
    | none =>
      cases s with
      | nil => simp [scanAux, matchFrom_nil]
      | cons c t =>
        simp only [scanAux, hm]
        exact ih t (by simpa using Nat.le_of_succ_le_succ hs)

theorem scanAux_eq (f : Nat) : ∀ (s : List Char), s.length ≤ f → scanAux f s = scan s := by
  induction f with
  | zero =>
    intro s hs
    have : s = [] := by
      cases s with
      | nil => rfl
      | cons c t => simp at hs
    subst this
    rfl
  | succ f ih =>
    intro s hs
    rcases Nat.lt_or_ge s.length (f + 1) with hlt | hge
    · rw [scanAux_succ f s (by omega)]
      exact ih s (by omega)
    · have : s.length = f + 1 := by omega
      rw [scan, this]

theorem scan_nil : scan [] = [] := rfl

theorem scan_pos (s : List Char) (g : Groups) (rest : List Char)
    (h : matchFrom s = some (g, rest)) : scan s = g :: scan rest := by
  have hlt := matchFrom_lt s g rest h
  rw [scan]
  cases hl : s.length with
  | zero => omega
  | succ n =>
    simp only [scanAux, h]
    exact congrArg (g :: ·) (scanAux_eq n rest (by omega))

theorem scan_neg (c : Char) (t : List Char) (h : matchFrom (c :: t) = none) :
    scan (c :: t) = scan t := by
  rw [scan]
  simp only [List.length_cons, scanAux, h]
  exact scanAux_eq t.length t (Nat.le_refl _)

/-! ## Completeness of the matcher on well-formed single-line blocks -/

theorem dropLit_self (lit : List Char) : ∀ r, dropLit lit (lit ++ r) = some r := by
  induction lit with
  | nil => intro r; rfl
  | cons c cs ih =>
    intro r
    simp only [List.cons_append, dropLit, if_pos rfl]
    exact ih r

theorem takeWhile_append_stop {p : Char → Bool} :
    ∀ (a : List Char), (∀ x ∈ a, p x = true) →
    ∀ (c : Char) (b : List Char), p c = false →
    (a ++ c :: b).takeWhile p = a ∧ (a ++ c :: b).dropWhile p = c :: b := by
  intro a
  induction a with
  | nil =>
    intro _ c b hc
    constructor
    · simp [List.takeWhile_cons, hc]
    · simp [List.dropWhile_cons, hc]
  | cons x xs ih =>
    intro ha c b hc
    have hx : p x = true := ha x (by simp)
    have hxs : ∀ y ∈ xs, p y = true := fun y hy => ha y (by simp [hy])
    obtain ⟨ih1, ih2⟩ := ih hxs c b hc
    constructor
    · simp [List.takeWhile_cons, hx, ih1]
    · simp [List.dropWhile_cons, hx, ih2]

theorem parseBody_block (close s r : List Char) (hs : s ≠ []) (hns : ('<') ∉ s)
    (c0 : List Char) (hc : close = '<' :: c0) :
    parseBody close (s ++ (close ++ r)) = some (s, r) := by
  have hmem : ∀ x ∈ s, (fun c => decide (c ≠ '<')) x = true := by
    intro x hx
    simp only [decide_eq_true_eq]
    intro hxe
    exact hns (hxe ▸ hx)
  have hstop : (fun c => decide (c ≠ '<')) '<' = false := by simp
  have hsplit := takeWhile_append_stop s hmem '<' (c0 ++ r) hstop
  unfold parseBody
  rw [hc]
  simp only [List.cons_append] at hsplit ⊢
  rw [hsplit.1, hsplit.2]
  rw [if_neg (by simpa [List.isEmpty_iff] using hs)]
  rw [show ('<' :: (c0 ++ r) : List Char) = ('<' :: c0) ++ r from rfl, dropLit_self]
  rfl

theorem parseHref_block (h r : List Char) (hh : h ≠ []) (hnh : ('"') ∉ h) :
    parseHref (hrefOpen ++ (h ++ (quoteGt ++ r))) = some (h, r) := by
  have hmem : ∀ x ∈ h, (fun c => decide (c ≠ '"')) x = true := by
    intro x hx
    simp only [decide_eq_true_eq]
    intro hxe
    exact hnh (hxe ▸ hx)
  have hstop : (fun c => decide (c ≠ '"')) '"' = false := by simp
  have hq : quoteGt = '"' :: ['>'] := by decide
  have hsplit := takeWhile_append_stop h hmem '"' (['>'] ++ r) hstop
  unfold parseHref
  rw [dropLit_self hrefOpen]
  rw [hq]
  simp only [List.cons_append] at hsplit ⊢
  rw [hsplit.1, hsplit.2]
  rw [if_neg (by simpa [List.isEmpty_iff] using hh)]
  simp [dropLit]

theorem lazyFind_here {A : Type} (lit : List Char) (k : List Char → Option A)
    (s r : List Char) (a : A) (hd : dropLit lit s = some r) (hk : k r = some a) :
    lazyFind lit k s = some a := by
  cases s with
  | nil =>
    simp only [lazyFind, hd, Option.some_bind]
    exact hk
  | cons c cs =>
    simp only [lazyFind, hd, hk]

/-- Completeness: the pattern matches every complete well-formed anchor
block written on one line, anchored at its start, capturing exactly its
five fields and consuming exactly the block. -/
theorem matchFrom_block (g : Groups) (rest : List Char) (hw : WellFormed g) :
    matchFrom (renderBlock g ++ rest) = some (g, rest) := by
  obtain ⟨h, s1, s2, s3, t⟩ := g
  obtain ⟨hh1, hh2, h11, h12, h21, h22, h31, h32, ht1, ht2⟩ := hw
  have hshape : renderBlock ⟨h, s1, s2, s3, t⟩ ++ rest =
      hrefOpen ++ (h ++ (quoteGt ++ (spanOpen ++ (s1 ++ (spanClose ++
        (spanOpen ++ (s2 ++ (spanClose ++ (spanOpen ++ (s3 ++ (spanClose ++
          (titleOpen ++ (t ++ (divClose ++ rest)))))))))))))) := by
    simp [renderBlock, List.append_assoc]
  rw [hshape]
  unfold matchFrom
  rw [parseHref_block h _ hh1 hh2]
  refine lazyFind_here spanOpen _ _ _ _ (dropLit_self spanOpen _) ?_
  rw [parseBody_block spanClose s1 _ h11 h12 (("/span>").toList) (by decide)]
  refine lazyFind_here spanOpen _ _ _ _ (dropLit_self spanOpen _) ?_
  rw [parseBody_block spanClose s2 _ h21 h22 (("/span>").toList) (by decide)]
  refine lazyFind_here spanOpen _ _ _ _ (dropLit_self spanOpen _) ?_
  rw [parseBody_block spanClose s3 _ h31 h32 (("/span>").toList) (by decide)]
  refine lazyFind_here titleOpen _ _ _ _ (dropLit_self titleOpen _) ?_
  rw [parseBody_block divClose t _ ht1 ht2 (("/div>").toList) (by decide)]

/-- Any sequence of complete well-formed blocks written back to back is
extracted to exactly its own records, in source order, one record per
block. -/
theorem scan_blocks : ∀ (gs : List Groups), (∀ g ∈ gs, WellFormed g) →
    scan (List.flatten (gs.map renderBlock)) = gs := by
  intro gs
  induction gs with
  | nil => intro _; exact scan_nil
  | cons g gs ih =>
    intro hw
    simp only [List.map_cons, List.flatten_cons]
    rw [scan_pos _ g _ (matchFrom_block g _ (hw g (by simp)))]
    rw [ih (fun g2 hg2 => hw g2 (by simp [hg2]))]

theorem extract_blocks (gs : List Groups) (hw : ∀ g ∈ gs, WellFormed g) :
    extract (String.mk (List.flatten (gs.map renderBlock))) = gs.map toItem := by
  unfold extract
  rw [show (String.mk (List.flatten (gs.map renderBlock))).toList =
    List.flatten (gs.map renderBlock) from rfl]
  rw [scan_blocks gs hw]

/-! ## Structural lemmas about the update step -/

theorem spinnerUpdate_fq (n : Nat) (msg : Msg) :
    fetchQueries (spinnerUpdate n msg).2 = [] := by
  cases msg <;> rfl

theorem listUpdateVal_items (l : ListModel) (msg : Msg) :
    (ListModel.updateVal l msg).items = l.items := by
  cases msg with
  | key k =>
    by_cases hf : l.settingFilter = true
    · cases k <;> simp [ListModel.updateVal, hf]
    · by_cases hs : k = .char '/'
      · simp [ListModel.updateVal, hf, hs]
      · simp [ListModel.updateVal, hf, hs]
  | windowSize w h => rfl
  | gotItems its => rfl
  | gotError e => rfl
  | tickMsg => rfl

theorem stateDispatch_fq (m : Model) (msg : Msg) :
    fetchQueries (stateDispatch m msg).2 = [] := by
  obtain ⟨st, si, sp, l, rc, er, w, ht⟩ := m
  cases st
  case stateLoading => exact spinnerUpdate_fq sp msg
  all_goals rfl

theorem stateDispatch_state (m : Model) (msg : Msg) :
    (stateDispatch m msg).1.state = m.state := by
  obtain ⟨st, si, sp, l, rc, er, w, ht⟩ := m
  cases st <;> rfl

theorem stateDispatch_err (m : Model) (msg : Msg) :
    (stateDispatch m msg).1.err = m.err := by
  obtain ⟨st, si, sp, l, rc, er, w, ht⟩ := m
  cases st <;> rfl

theorem stateDispatch_items (m : Model) (msg : Msg) :
    (stateDispatch m msg).1.list.items = m.list.items := by
  obtain ⟨st, si, sp, l, rc, er, w, ht⟩ := m
  cases st
  case stateResults => exact listUpdateVal_items l msg
  all_goals rfl

theorem stateDispatch_searchInput_ne (m : Model) (msg : Msg)
    (h : m.state ≠ .stateSearch) :
    (stateDispatch m msg).1.searchInput = m.searchInput := by
  obtain ⟨st, si, sp, l, rc, er, w, ht⟩ := m
  cases st
  case stateSearch => exact absurd rfl h
  all_goals rfl

theorem stateDispatch_searchInput_eq (m : Model) (msg : Msg)
    (h : m.state = .stateSearch) :
    (stateDispatch m msg).1.searchInput = TextInput.updateVal m.searchInput msg := by
  obtain ⟨st, si, sp, l, rc, er, w, ht⟩ := m
  cases st
  case stateSearch => rfl
  all_goals exact absurd h (by simp)

/-- Inversion of the single dispatch site: either a step dispatches no
fetch, or it is the enter-from-Input submit with a nonempty buffer, moves
to Waiting, and dispatches exactly the buffered query. -/
theorem update_fetch_inversion (m : Model) (msg : Msg) :
    fetchQueries (update m msg).cmd = [] ∨
    (m.state = .stateSearch ∧ msg = .key .enter ∧ m.searchInput.value ≠ [] ∧
     (update m msg).model.state = .stateLoading ∧
     fetchQueries (update m msg).cmd = [m.searchInput.valueStr]) := by
  cases msg with
  | key k =>
    cases k with
    | ctrlc => left; rfl
    | char c =>
      by_cases hc : c = 'q'
      · by_cases hg : m.state ≠ .stateResults ∨ m.list.settingFilter = false
        · left
          simp only [update]
          rw [if_pos hc, if_pos hg]
          rfl
        · left
          simp only [update]
          rw [if_pos hc, if_neg hg]
          simp [plain, stateDispatch_fq]
      · left
        simp only [update]
        rw [if_neg hc]
        simp [plain, stateDispatch_fq]
    | esc =>
      by_cases hg : m.state = .stateResults ∨ m.state = .stateError
      · left
        simp only [update]
        rw [if_pos hg]
        rfl
      · left
        simp only [update]
        rw [if_neg hg]
        simp [plain, stateDispatch_fq]
    | enter =>
      by_cases hg : m.state = .stateSearch ∧ m.searchInput.value ≠ []
      · right
        refine ⟨hg.1, rfl, hg.2, ?_, ?_⟩
        · simp only [update]
          rw [if_pos hg]
        · simp only [update]
          rw [if_pos hg]
          simp [fetchQueries]
      · left
        simp only [update]
        rw [if_neg hg]
        by_cases hr : m.state = .stateResults
        · rw [if_pos hr]
          split
          · rfl
          · simp [plain, stateDispatch_fq]
        · rw [if_neg hr]
          simp [plain, stateDispatch_fq]
    | backspace => left; simp [update, plain, stateDispatch_fq]
    | other s => left; simp [update, plain, stateDispatch_fq]
  | windowSize w h => left; simp [update, plain, stateDispatch_fq]
  | gotItems its => left; rfl
  | gotError e => left; rfl
  | tickMsg => left; simp [update, plain, stateDispatch_fq]

theorem inv_dispatch (m : Model) (msg : Msg) (k : Nat) (h : Inv m k) :
    Inv (stateDispatch m msg).1 k := by
  unfold Inv at h ⊢
  rw [stateDispatch_state]
  exact h

theorem inv_step (m : Model) (k : Nat) (msg : Msg) (h : Inv m k)
    (hc : isCompletion msg = true → 0 < k) :
    Inv (update m msg).model
      ((if isCompletion msg = true then k - 1 else k) +
        (fetchQueries (update m msg).cmd).length) := by
  cases msg with
  | gotItems its =>
    have hk1 : k = 1 := by
      have := hc rfl
      rcases h with ⟨_, h1⟩ | ⟨_, h0⟩
      · exact h1
      · omega
    subst hk1
    right
    exact ⟨by simp [update], by simp [update, fetchQueries, isCompletion]⟩
  | gotError e =>
    have hk1 : k = 1 := by
      have := hc rfl
      rcases h with ⟨_, h1⟩ | ⟨_, h0⟩
      · exact h1
      · omega
    subst hk1
    right
    exact ⟨by simp [update], by simp [update, fetchQueries, isCompletion]⟩
  | tickMsg =>
    simp only [update, isCompletion, Bool.false_eq_true, if_false, plain,
      stateDispatch_fq, List.length_nil, Nat.add_zero]
    exact inv_dispatch m .tickMsg k h
  | windowSize w ht =>
    simp only [update, isCompletion, Bool.false_eq_true, if_false, plain,
      stateDispatch_fq, List.length_nil, Nat.add_zero]
    refine inv_dispatch _ _ k ?_
    unfold Inv at h ⊢
    exact h
  | key kk =>
    cases kk with
    | ctrlc =>
      simpa [update, isCompletion, fetchQueries] using h
    | char c =>
      by_cases hc2 : c = 'q'
      · by_cases hg : m.state ≠ .stateResults ∨ m.list.settingFilter = false
        · simp only [update, isCompletion, Bool.false_eq_true, if_false]
          rw [if_pos hc2, if_pos hg]
          simpa [fetchQueries] using h
        · simp only [update, isCompletion, Bool.false_eq_true, if_false]
          rw [if_pos hc2, if_neg hg]
          simp only [plain, stateDispatch_fq, List.length_nil, Nat.add_zero]
          exact inv_dispatch m _ k h
      · simp only [update, isCompletion, Bool.false_eq_true, if_false]
        rw [if_neg hc2]
        simp only [plain, stateDispatch_fq, List.length_nil, Nat.add_zero]
        exact inv_dispatch m _ k h
    | esc =>
      by_cases hg : m.state = .stateResults ∨ m.state = .stateError
      · have hk0 : k = 0 := by
          rcases h with ⟨hl, _⟩ | ⟨_, h0⟩
          · rcases hg with hg | hg <;> rw [hl] at hg <;> cases hg
          · exact h0
        subst hk0
        simp only [update, isCompletion, Bool.false_eq_true, if_false]
        rw [if_pos hg]
        right
        exact ⟨by simp, by simp [fetchQueries]⟩
      · simp only [update, isCompletion, Bool.false_eq_true, if_false]
        rw [if_neg hg]
        simp only [plain, stateDispatch_fq, List.length_nil, Nat.add_zero]
        exact inv_dispatch m _ k h
    | enter =>
      by_cases hg : m.state = .stateSearch ∧ m.searchInput.value ≠ []
      · have hk0 : k = 0 := by
          rcases h with ⟨hl, _⟩ | ⟨_, h0⟩
          · rw [hg.1] at hl; cases hl
          · exact h0
        subst hk0
        simp only [update, isCompletion, Bool.false_eq_true, if_false]
        rw [if_pos hg]
        left
        exact ⟨by simp, by simp [fetchQueries]⟩
      · simp only [update, isCompletion, Bool.false_eq_true, if_false]
        rw [if_neg hg]
        by_cases hr : m.state = .stateResults
        · rw [if_pos hr]
          split
          · simpa [fetchQueries] using h
          · simp only [plain, stateDispatch_fq, List.length_nil, Nat.add_zero]
            exact inv_dispatch m _ k h
        · rw [if_neg hr]
          simp only [plain, stateDispatch_fq, List.length_nil, Nat.add_zero]
          exact inv_dispatch m _ k h
    | backspace =>
      simp only [update, isCompletion, Bool.false_eq_true, if_false, plain,
        stateDispatch_fq, List.length_nil, Nat.add_zero]
      exact inv_dispatch m _ k h
    | other s =>
      simp only [update, isCompletion, Bool.false_eq_true, if_false, plain,
        stateDispatch_fq, List.length_nil, Nat.add_zero]
      exact inv_dispatch m _ k h

theorem reach_inv (m : Model) (k : Nat) (h : Reach m k) : Inv m k := by
  induction h with
  | init => exact Or.inr ⟨by decide, rfl⟩
  | step msg hr hc ih => exact inv_step _ _ msg ih hc

theorem textUpdateVal_qfree (ti : TextInput) (msg : Msg)
    (hq : ('q') ∉ ti.value) (hk : msg ≠ Msg.key (Key.char ('q'))) :
    ('q') ∉ (TextInput.updateVal ti msg).value := by
  obtain ⟨v, f⟩ := ti
  cases msg with
  | key k =>
    cases f
    · simpa [TextInput.updateVal] using hq
    · cases k with
      | char c =>
        by_cases hl : v.length < charLimit
        · simp only [TextInput.updateVal, if_pos hl, if_true]
          intro hmem
          rcases List.mem_append.mp hmem with h1 | h2
          · exact hq h1
          · have hcq : c = 'q' := (List.mem_singleton.mp h2).symm
            exact hk (by rw [hcq])
        · simpa [TextInput.updateVal, hl] using hq
      | backspace =>
        simp only [TextInput.updateVal, if_true]
        intro hmem
        exact hq (List.dropLast_subset v hmem)
      | ctrlc => simpa [TextInput.updateVal] using hq
      | enter => simpa [TextInput.updateVal] using hq
      | esc => simpa [TextInput.updateVal] using hq
      | other s => simpa [TextInput.updateVal] using hq
  | windowSize w h => simpa [TextInput.updateVal] using hq
  | gotItems its => simpa [TextInput.updateVal] using hq
  | gotError e => simpa [TextInput.updateVal] using hq
  | tickMsg => simpa [TextInput.updateVal] using hq

theorem qfree_dispatch (m : Model) (msg : Msg) (h : QFree m)
    (hmsg : msg ≠ Msg.key (Key.char ('q'))) :
    QFree (stateDispatch m msg).1 := by
  by_cases hs : m.state = .stateSearch
  · unfold QFree
    rw [stateDispatch_searchInput_eq m msg hs]
    exact textUpdateVal_qfree m.searchInput msg h hmsg
  · unfold QFree
    rw [stateDispatch_searchInput_ne m msg hs]
    exact h

theorem qfree_step (m : Model) (msg : Msg) (h : QFree m) :
    QFree (update m msg).model := by
  cases msg with
  | gotItems its => exact h
  | gotError e => exact h
  | tickMsg =>
    simp only [update, plain]
    exact qfree_dispatch m _ h (by simp)
  | windowSize w ht =>
    simp only [update, plain]
    exact qfree_dispatch _ _ h (by simp)
  | key kk =>
    cases kk with
    | ctrlc => exact h
    | char c =>
      by_cases hc : c = 'q'
      · by_cases hg : m.state ≠ .stateResults ∨ m.list.settingFilter = false
        · simp only [update]
          rw [if_pos hc, if_pos hg]
          exact h
        · simp only [update]
          rw [if_pos hc, if_neg hg]
          simp only [plain]
          have hst : m.state = .stateResults := by
            by_contra hne
            exact hg (Or.inl hne)
          unfold QFree
          rw [stateDispatch_searchInput_ne m _ (by simp [hst])]
          exact h
      · simp only [update]
        rw [if_neg hc]
        simp only [plain]
        exact qfree_dispatch m _ h (by simp [hc])
    | esc =>
      by_cases hg : m.state = .stateResults ∨ m.state = .stateError
      · simp only [update]
        rw [if_pos hg]
        exact h
      · simp only [update]
        rw [if_neg hg]
        simp only [plain]
        exact qfree_dispatch m _ h (by simp)
    | enter =>
      by_cases hg : m.state = .stateSearch ∧ m.searchInput.value ≠ []
      · simp only [update]
        rw [if_pos hg]
        exact h
      · simp only [update]
        rw [if_neg hg]
        by_cases hr : m.state = .stateResults
        · rw [if_pos hr]
          split
          · exact h
          · simp only [plain]
            exact qfree_dispatch m _ h (by simp)
        · rw [if_neg hr]
          simp only [plain]
          exact qfree_dispatch m _ h (by simp)
    | backspace =>
      simp only [update, plain]
      exact qfree_dispatch m _ h (by simp)
    | other s =>
      simp only [update, plain]
      exact qfree_dispatch m _ h (by simp)

theorem reach_qfree (m : Model) (k : Nat) (h : Reach m k) : QFree m := by
  induction h with
  | init => simp [QFree, initialModel]
  | step msg hr hc ih => exact qfree_step _ msg ih

theorem stateDispatch_cmd_ne_quit (m : Model) (msg : Msg) :
    (stateDispatch m msg).2 ≠ Cmd.quit := by
  obtain ⟨st, si, sp, l, rc, er, w, ht⟩ := m
  cases st
  case stateLoading => cases msg <;> simp [stateDispatch, spinnerUpdate]
  all_goals simp [stateDispatch, TextInput.update, ListModel.update]

/-! ## Claim theorems -/

/-- C3: at most one fetch task is outstanding at any reachable
configuration; a step dispatches a fetch only from the Input mode on the
submit key, and no message processed while Waiting dispatches one. -/
theorem c3_single_flight :
    (∀ (m : Model) (k : Nat), Reach m k → k ≤ 1) ∧
    (∀ (m : Model) (msg : Msg), fetchQueries (update m msg).cmd ≠ [] →
      m.state = .stateSearch ∧ msg = Msg.key .enter) ∧
    (∀ (m : Model) (msg : Msg), m.state = .stateLoading →
      fetchQueries (update m msg).cmd = []) := by
  refine ⟨?_, ?_, ?_⟩
  · intro m k h
    rcases reach_inv m k h with ⟨_, h1⟩ | ⟨_, h0⟩ <;> omega
  · intro m msg hne
    rcases update_fetch_inversion m msg with h0 | ⟨h1, h2, -⟩
    · exact absurd h0 hne
    · exact ⟨h1, h2⟩
  · intro m msg hl
    rcases update_fetch_inversion m msg with h0 | ⟨h1, -⟩
    · exact h0
    · rw [hl] at h1
      cases h1

theorem c3_single_flight_witness :
    0 ≤ 1 ∧ typedModel.state = .stateSearch ∧
      fetchQueries (update loadingModel (Msg.key .enter)).cmd = [] :=
  ⟨c3_single_flight.1 initialModel 0 Reach.init,
   (c3_single_flight.2.1 typedModel (Msg.key .enter) (by decide)).1,
   c3_single_flight.2.2 loadingModel (Msg.key .enter) rfl⟩

/-- C4: from Input, submit with a nonempty query moves to Waiting and
dispatches exactly one fetch tagged with exactly that query; with the
empty query it neither transitions nor dispatches. -/
theorem c4_submit (m : Model) (hs : m.state = .stateSearch) :
    (m.searchInput.value ≠ [] →
      (update m (Msg.key .enter)).model.state = .stateLoading ∧
      fetchQueries (update m (Msg.key .enter)).cmd = [m.searchInput.valueStr]) ∧
    (m.searchInput.value = [] →
      (update m (Msg.key .enter)).model.state = .stateSearch ∧
      fetchQueries (update m (Msg.key .enter)).cmd = []) := by
  constructor
  · intro hne
    have hg : m.state = .stateSearch ∧ m.searchInput.value ≠ [] := ⟨hs, hne⟩
    constructor
    · simp only [update]
      rw [if_pos hg]
    · simp only [update]
      rw [if_pos hg]
      simp [fetchQueries]
  · intro hemp
    have hg : ¬(m.state = .stateSearch ∧ m.searchInput.value ≠ []) := by
      intro hh
      exact hh.2 hemp
    have hr : ¬ m.state = .stateResults := by
      rw [hs]
      simp
    constructor
    · simp only [update]
      rw [if_neg hg, if_neg hr]
      simp only [plain]
      rw [stateDispatch_state]
      exact hs
    · simp only [update]
      rw [if_neg hg, if_neg hr]
      simp [plain, stateDispatch_fq]

theorem c4_submit_witness :
    ((update typedModel (Msg.key .enter)).model.state = .stateLoading ∧
      fetchQueries (update typedModel (Msg.key .enter)).cmd =
        [typedModel.searchInput.valueStr]) ∧
    ((update initialModel (Msg.key .enter)).model.state = .stateSearch ∧
      fetchQueries (update initialModel (Msg.key .enter)).cmd = []) :=
  ⟨(c4_submit typedModel rfl).1 (by decide), (c4_submit initialModel rfl).2 rfl⟩

/-- C5: a well-formed envelope whose fragment extracts to zero records
makes the fetch return the no-results error naming the query, whose
delivery puts the session in Failed; and no fetch outcome ever carries an
empty item list, so Showing is never entered with one by a completion. -/
theorem c5_noresults (q html : String) :
    (extract html = [] →
      fetchMovies q (.envelope html) = Msg.gotError (.noResults q) ∧
      ∀ m : Model, (update m (fetchMovies q (.envelope html))).model.state = .stateError) ∧
    (∀ env : NetOutcome, fetchMovies q env ≠ Msg.gotItems []) := by
  constructor
  · intro hemp
    have h1 : fetchMovies q (.envelope html) = Msg.gotError (.noResults q) := by
      simp [fetchMovies, hemp]
    refine ⟨h1, fun m => ?_⟩
    rw [h1]
    rfl
  · intro env
    cases env with
    | transportErr s => simp [fetchMovies]
    | decodeErr s => simp [fetchMovies]
    | envelope h2 =>
      simp only [fetchMovies]
      by_cases he : extract h2 = []
      · simp [he]
      · simp [he]

theorem c5_noresults_witness :
    (fetchMovies ("batman") (.envelope ("")) = Msg.gotError (.noResults ("batman")) ∧
      (update loadingModel (fetchMovies ("batman") (.envelope ("")))).model.state =
        .stateError) ∧
    fetchMovies ("batman") (.envelope ("")) ≠ Msg.gotItems [] :=
  ⟨⟨((c5_noresults ("batman") ("")).1 rfl).1,
    ((c5_noresults ("batman") ("")).1 rfl).2 loadingModel⟩,
   (c5_noresults ("batman") ("")).2 (.envelope (""))⟩

/-- C9: with the viewport dimensions not yet known (width still zero), the
render step returns the empty frame in every mode. -/
theorem c9_empty_frame (m : Model) (h : m.width = 0) : view m = ("") := by
  simp [view, h]

theorem c9_empty_frame_witness : view initialModel = ("") :=
  c9_empty_frame initialModel rfl

/-- C10: the q rune quits in every configuration except Showing while the
filter prompt is active, where it is consumed by the filter instead; in
particular the Input-mode buffer never contains the rune on any reachable
trace, and no dispatched query ever does. -/
theorem c10_q_quits :
    (∀ m : Model,
      (¬(m.state = .stateResults ∧ m.list.settingFilter = true) →
        update m (Msg.key (.char ('q'))) = ⟨m, .quit, []⟩) ∧
      (m.state = .stateResults ∧ m.list.settingFilter = true →
        (update m (Msg.key (.char ('q')))).cmd ≠ Cmd.quit)) ∧
    (∀ (m : Model) (k : Nat), Reach m k → ('q') ∉ m.searchInput.value) ∧
    (∀ (m : Model) (k : Nat) (msg : Msg) (q : String), Reach m k →
      q ∈ fetchQueries (update m msg).cmd → ('q') ∉ q.data) := by
  refine ⟨fun m => ⟨?_, ?_⟩, ?_, ?_⟩
  · intro hng
    have hg : m.state ≠ .stateResults ∨ m.list.settingFilter = false := by
      by_cases hr : m.state = .stateResults
      · right
        by_contra hf
        exact hng ⟨hr, by simpa using hf⟩
      · exact Or.inl hr
    simp only [update, if_true]
    rw [if_pos hg]
  · intro hg
    have hng : ¬(m.state ≠ .stateResults ∨ m.list.settingFilter = false) := by
      intro hh
      rcases hh with hh | hh
      · exact hh hg.1
      · rw [hg.2] at hh
        cases hh
    simp only [update, if_true]
    rw [if_neg hng]
    exact stateDispatch_cmd_ne_quit m _
  · intro m k hr
    exact reach_qfree m k hr
  · intro m k msg q hr hq
    rcases update_fetch_inversion m msg with h0 | ⟨-, -, -, -, h5⟩
    · rw [h0] at hq
      cases hq
    · rw [h5] at hq
      have hqq : q = m.searchInput.valueStr := by simpa using hq
      subst hqq
      exact reach_qfree m k hr

theorem c10_q_quits_witness :
    update loadingModel (Msg.key (.char ('q'))) = ⟨loadingModel, .quit, []⟩ ∧
    ('q') ∉ initialModel.searchInput.value :=
  ⟨(c10_q_quits.1 loadingModel).1 (by decide),
   c10_q_quits.2.1 initialModel 0 Reach.init⟩

/-- C1 fails as stated: delivering a success completion to a session in
the Input mode — not Waiting — mutates both the item list and the mode,
instead of being silently discarded. -/
theorem c1_counterexample :
    initialModel.state ≠ .stateLoading ∧
    (update initialModel (Msg.gotItems [exampleItem])).model.state = .stateResults ∧
    (update initialModel (Msg.gotItems [exampleItem])).model.list.items ≠
      initialModel.list.items := by
  decide

/-- C1 amended: the update step applies a fetch completion in every mode
with no mode check — success stores the items and enters Showing, an
error stores the error and enters Failed — and the silent-discard
guarantee holds only at the trace level: while the session is not
Waiting, no fetch is outstanding, so no completion can be delivered. -/
theorem c1_amended :
    (∀ (m : Model) (its : List Item),
      (update m (Msg.gotItems its)).model.state = .stateResults ∧
      (update m (Msg.gotItems its)).model.list.items = its ∧
      (update m (Msg.gotItems its)).model.err = m.err) ∧
    (∀ (m : Model) (e : FetchError),
      (update m (Msg.gotError e)).model.state = .stateError ∧
      (update m (Msg.gotError e)).model.err = some e ∧
      (update m (Msg.gotError e)).model.list.items = m.list.items) ∧
    (∀ (m : Model) (k : Nat), Reach m k → m.state ≠ .stateLoading → k = 0) := by
  refine ⟨fun m its => ⟨rfl, rfl, rfl⟩, fun m e => ⟨rfl, rfl, rfl⟩, ?_⟩
  intro m k hr hne
  rcases reach_inv m k hr with ⟨h1, -⟩ | ⟨-, h0⟩
  · exact absurd h1 hne
  · exact h0

theorem c1_amended_witness :
    (update failedModel (Msg.gotItems [exampleItem])).model.state = .stateResults ∧
    (0 : Nat) = 0 :=
  ⟨(c1_amended.1 failedModel [exampleItem]).1,
   c1_amended.2.2 initialModel 0 Reach.init (by decide)⟩

/-- C2 fails as stated: the back action from Failed returns to Input but
does not clear the stored error — no assignment ever clears it. -/
theorem c2_counterexample :
    (update failedModel (Msg.key .esc)).model.state = .stateSearch ∧
    (update failedModel (Msg.key .esc)).model.err = some (.noResults ("x")) := by
  decide

/-- C2 amended: from both Showing and Failed, the back action returns to
Input and refocuses the text entry, but leaves `lastError` untouched — it
is only ever overwritten by a later error completion — and keeps the
items. -/
theorem c2_amended (m : Model)
    (h : m.state = .stateResults ∨ m.state = .stateError) :
    (update m (Msg.key .esc)).model.state = .stateSearch ∧
    (update m (Msg.key .esc)).model.searchInput.focused = true ∧
    (update m (Msg.key .esc)).model.err = m.err ∧
    (update m (Msg.key .esc)).model.list.items = m.list.items ∧
    (update m (Msg.key .esc)).cmd = Cmd.none := by
  simp only [update]
  rw [if_pos h]
  exact ⟨rfl, rfl, rfl, rfl, rfl⟩

theorem c2_amended_witness :
    (update failedModel (Msg.key .esc)).model.state = .stateSearch ∧
    (update failedModel (Msg.key .esc)).model.err = failedModel.err :=
  ⟨(c2_amended failedModel (Or.inr rfl)).1,
   (c2_amended failedModel (Or.inr rfl)).2.2.1⟩

/-- C6 fails as stated: the single anchor block whose five groups are
separated by newlines is not matched at all — the gap pattern of the Go
regexp (dot without the s flag) cannot cross a line break — so nothing is
extracted where the claim requires a match. -/
theorem c6_counterexample : extract multiLineBlock = [] := by
  decide

/-- C6 amended: every successful match decomposes the input with
newline-free gaps between the five groups — so a block whose groups are
separated by newlines is never matched, while the same block on a single
line is — and over complete blocks matching is not greedy across blocks:
two adjacent complete blocks yield exactly their own records. -/
theorem c6_amended :
    (∀ (s : List Char) (g : Groups) (rest : List Char),
      matchFrom s = some (g, rest) → MatchShape s g rest) ∧
    (∀ (g1 g2 : Groups), WellFormed g1 → WellFormed g2 →
      extract (String.mk (renderBlock g1 ++ renderBlock g2)) =
        [toItem g1, toItem g2]) ∧
    extract multiLineBlock = [] ∧
    extract singleBlock = [exampleItem] ∧
    extract (singleBlock ++ secondBlock) = [exampleItem, secondItem] := by
  refine ⟨matchFrom_some, ?_, by decide, by decide, by decide⟩
  intro g1 g2 hw1 hw2
  have h2 : List.flatten ([g1, g2].map renderBlock) = renderBlock g1 ++ renderBlock g2 := by
    simp
  rw [← h2]
  refine extract_blocks [g1, g2] ?_
  intro g hg
  rcases (by simpa using hg : g = g1 ∨ g = g2) with h | h
  · exact h ▸ hw1
  · exact h ▸ hw2

theorem c6_amended_witness :
    MatchShape (singleBlock.toList) singleGroups [] :=
  c6_amended.1 singleBlock.toList singleGroups [] (by decide)

/-- C7 fails as stated: the exit path is not free of further side effects
— the deferred selfCleanup schedules removal of the program's own
executable half a second after exit. -/
theorem c7_counterexample :
    selfCleanup true ≠ [] ∧
    selfCleanup true = [ExitEffect.scheduleSelfRemove 500] := by
  decide

/-- C7 amended: the quit action from any state returns the model untouched
with only the quit command — no fetch cleanup, no immediate effects — but
on the way out the deferred selfCleanup schedules deletion of the
program's own executable after 500 ms whenever the executable path
resolves. -/
theorem c7_amended :
    (∀ m : Model, update m (Msg.key .ctrlc) = ⟨m, .quit, []⟩) ∧
    (∀ m : Model, m.state ≠ .stateResults ∨ m.list.settingFilter = false →
      update m (Msg.key (.char ('q'))) = ⟨m, .quit, []⟩) ∧
    selfCleanup true = [ExitEffect.scheduleSelfRemove 500] ∧
    selfCleanup false = [] := by
  refine ⟨fun m => rfl, fun m hg => ?_, rfl, rfl⟩
  simp only [update, if_true]
  rw [if_pos hg]

theorem c7_amended_witness :
    update loadingModel (Msg.key .ctrlc) = ⟨loadingModel, .quit, []⟩ ∧
    update loadingModel (Msg.key (.char ('q'))) = ⟨loadingModel, .quit, []⟩ :=
  ⟨c7_amended.1 loadingModel, c7_amended.2.1 loadingModel (Or.inl (by decide))⟩

/-- C8 fails as stated: a block missing its required title group is not
skipped — its lazy gaps extend into the following complete block,
producing a single record mixing the fields of both blocks, and the
following block's own record is lost. -/
theorem c8_counterexample :
    extract (truncatedBlock ++ secondBlock) = [chimeraItem] ∧
    chimeraItem.itemURL = ("/bad") ∧
    chimeraItem.title = ("Fast & Furious") := by
  decide

/-- C8 amended: extraction is a pure function — a repeated run returns the
identical output — and scans left to right, emitting matches in source
order without deduplication and skipping one character when no match
starts; but a block missing a required group is only skipped when the
pattern cannot complete from following text (for instance across a
newline); otherwise the match extends into the next block. -/
theorem c8_amended :
    (∀ html : String, extract html = extract html) ∧
    (∀ (s : List Char) (g : Groups) (rest : List Char),
      matchFrom s = some (g, rest) → scan s = g :: scan rest) ∧
    (∀ (c : Char) (t : List Char), matchFrom (c :: t) = none →
      scan (c :: t) = scan t) ∧
    (∀ (gs : List Groups), (∀ g ∈ gs, WellFormed g) →
      extract (String.mk (List.flatten (gs.map renderBlock))) = gs.map toItem) ∧
    extract (truncatedBlock ++ ("\n") ++ secondBlock) = [secondItem] ∧
    extract (singleBlock ++ singleBlock) = [exampleItem, exampleItem] := by
  refine ⟨fun h => rfl, scan_pos, scan_neg, extract_blocks, by decide, by decide⟩

theorem c8_amended_witness :
    scan (singleBlock.toList) = singleGroups :: scan [] ∧
    scan (('x') :: []) = scan [] := by
  constructor
  · exact c8_amended.2.1 singleBlock.toList singleGroups [] (by decide)
  · exact c8_amended.2.2.1 ('x') [] (by decide)

end Movcli
